import Mathlib

/-!
Shallow embedding of the CORD-19 analysis repository
(`src/analysis/cord19_analysis.py`, `src/analysis/simple_analysis.py`,
`src/app.py`): the chunked streaming aggregation (clean each chunk, take
its value counts, merge into a running total with key-wise addition),
top-N extraction, the word tokenizer, the dashboard filter, and the
error path for a missing source file.  Rows are association records of
optional string fields; a missing CSV field (pandas NaN) is `none`.
-/

set_option linter.unusedSectionVars false

namespace Cord19

/-! ### Character classes and maximal-run extraction -/

/-- Character test used by the regex `[a-zA-Z]`: ASCII letters only.
`Char.isAlpha` in Lean is exactly the ASCII letter test. -/
def isAsciiLetter (c : Char) : Bool := c.isAlpha

/-- Word characters of the regex `\w` (ASCII fragment): letters, digits
and underscore.  The model covers ASCII text; Unicode alphanumerics,
which Python's `re` also treats as word characters, are out of scope. -/
def isWordChar (c : Char) : Bool := c.isAlpha || c.isDigit || c == '_'

/-- Whitespace characters recognised by Python's `str.split()` on ASCII
text: space, tab, newline, carriage return, vertical tab, form feed. -/
def pyIsSpace (c : Char) : Bool :=
  c.toNat = 32 || c.toNat = 9 || c.toNat = 10 || c.toNat = 13 ||
  c.toNat = 11 || c.toNat = 12

/-- Auxiliary for `runs`: `acc` holds the (reversed) run currently being
built. -/
def runsAux (p : Char → Bool) : List Char → List Char → List (List Char)
  | acc, [] => if acc.isEmpty then [] else [acc.reverse]
  | acc, c :: cs =>
    if p c then runsAux p (c :: acc) cs
    else if acc.isEmpty then runsAux p [] cs
    else acc.reverse :: runsAux p [] cs

/-- Maximal runs of characters satisfying `p`, in order of appearance. -/
def runs (p : Char → Bool) (cs : List Char) : List (List Char) :=
  runsAux p [] cs

/-- Auxiliary for `countRuns`: the boolean records whether the previous
character was inside a run. -/
def countRunsAux (p : Char → Bool) : Bool → List Char → Nat
  | _, [] => 0
  | inRun, c :: cs =>
    if p c then (if inRun then 0 else 1) + countRunsAux p true cs
    else countRunsAux p false cs

/-- Number of maximal runs of characters satisfying `p`: counts the
transitions from a non-`p` (or initial) position into a `p` position.
This is an independent characterisation used to state claims about
`runs`. -/
def countRuns (p : Char → Bool) (cs : List Char) : Nat :=
  countRunsAux p false cs

/-! ### Python string primitives used by the scripts -/

/-- Model of Python `str.lower()` on ASCII text. -/
def lowerStr (s : String) : String := ⟨s.data.map Char.toLower⟩

/-- Model of Python `str.split()` (no separator): the maximal
whitespace-delimited tokens of `s`, empty tokens discarded. -/
def pySplit (s : String) : List String :=
  (runs (fun c => !pyIsSpace c) s.data).map (fun cs => ⟨cs⟩)

/-- Model of `' '.join(texts)` from the scripts. -/
def joinSpace (texts : List String) : String := String.intercalate " " texts

/-! ### The tokenizer of `analyze_word_frequency` and the dashboard -/

/-- Model of `re.findall(r'\b[a-zA-Z]+\b', s)`: the word-boundary
anchors admit exactly the maximal runs of word characters that consist
entirely of ASCII letters (a letter run adjacent to a digit or an
underscore has no boundary next to it and is not matched). -/
def reFindallWords (s : String) : List String :=
  ((runs isWordChar s.data).filter (fun run => run.all isAsciiLetter)).map
    (fun cs => ⟨cs⟩)

/-- The fixed stop-word set of `analyze_word_frequency` (and of the
dashboard's word analysis tab, which duplicates it). -/
def stopWords : List String :=
  ["the", "and", "of", "in", "to", "a", "for", "on", "with", "by",
   "an", "as", "at", "from", "is", "that", "this", "are", "be", "was"]

/-- The tokenizer pipeline of `analyze_word_frequency`:
`words = re.findall(r'\b[a-zA-Z]+\b', all_text.lower())` followed by
`[w for w in words if w not in stop_words and len(w) > 2]`. -/
def tokenize (s : String) : List String :=
  (reFindallWords (lowerStr s)).filter
    (fun w => decide (w ∉ stopWords) && decide (2 < w.length))

/-- Modelled from the spec: the tokenizer as the spec describes it,
extracting maximal runs of ASCII letters (rather than the letter-only
maximal word-character runs the code's regex extracts), then applying
the same stop-word and length filter. -/
def tokenizeLetterRuns (s : String) : List String :=
  ((runs isAsciiLetter (lowerStr s).data).map (fun cs => (⟨cs⟩ : String))).filter
    (fun w => decide (w ∉ stopWords) && decide (2 < w.length))

/-! ### Data model: raw and cleaned rows -/

/-- A raw CSV row restricted to the columns the scripts use.  A field
that is absent or empty in the CSV surfaces in pandas as NaN, modelled
here as `none`. -/
structure Row where
  title : Option String
  abstract : Option String
  publish_time : Option String
  journal : Option String
  source_x : Option String
deriving DecidableEq

/-- Numeric value of a list of decimal digit characters. -/
def digitsVal (cs : List Char) : Nat :=
  cs.foldl (fun a c => 10 * a + (c.toNat - 48)) 0

/-- Model of `pd.to_datetime(x, errors='coerce')` followed by
`.dt.year`, for ISO-style date strings whose first four characters are
the year digits: a missing field or a string not starting with four
digits coerces to NaT, hence a null year. -/
def parseYear : Option String → Option Int
  | none => none
  | some s =>
    let ds := s.data.take 4
    if ds.length = 4 && ds.all Char.isDigit then some (Int.ofNat (digitsVal ds))
    else none

/-- A row after `clean_data`: year extracted from the date (null when
unparseable), abstract word count derived, journal defaulted to the
`"Unknown"` sentinel. -/
structure CleanRow where
  title : Option String
  abstract : Option String
  year : Option Int
  abstract_word_count : Nat
  journal : String
  source_x : Option String
deriving DecidableEq

/-- Model of the word-count lambda of `clean_data`:
`len(str(x).split()) if pd.notnull(x) else 0`. -/
def abstractWordCount : Option String → Nat
  | some s => (pySplit s).length
  | none => 0

/-- Model of the dashboard's variant (`app.py`): the abstract is first
filled with `''`, then counted with `len(str(x).split())`. -/
def appAbstractWordCount (a : Option String) : Nat :=
  (pySplit (a.getD "")).length

/-- Row-wise content of `clean_data`: parse the date into a year, derive
the abstract word count, default a missing journal to `"Unknown"`. -/
def cleanRow (r : Row) : CleanRow where
  title := r.title
  abstract := r.abstract
  year := parseYear r.publish_time
  abstract_word_count := abstractWordCount r.abstract
  journal := r.journal.getD "Unknown"
  source_x := r.source_x

/-- `clean_data` applied to a chunk: row-wise cleaning. -/
def cleanChunk (rows : List Row) : List CleanRow := rows.map cleanRow

/-- Key extracted by `analyze_publications_by_year`:
`df_clean['year']`, null for an unparseable date (`value_counts` then
drops it). -/
def yearKey (r : Row) : Option Int := (cleanRow r).year

/-- Key extracted by `analyze_top_journals`: `df_clean['journal']`,
always present after the `"Unknown"` fill. -/
def journalKey (r : Row) : Option String := some (cleanRow r).journal

/-- Key extracted by `analyze_sources`: `df_clean['source_x']`
(`clean_data` does not touch it; `value_counts` drops NaN). -/
def sourceKey (r : Row) : Option String := r.source_x

/-! ### The accumulated series: a key-to-count association list

The running total of the chunked loops is a pandas `Series`, modelled
as an association list from keys to counts.  `Series.add` aligns the
two operands on the sorted union of their indexes, so after every
merge step the accumulated series is in ascending key order. -/

variable {K : Type*} [DecidableEq K] [LinearOrder K]

/-- Value of a series at a key, defaulting to `0` for an absent key
(the `fill_value=0` convention of the merge). -/
def lookup0 (s : List (K × Nat)) (k : K) : Nat :=
  match s.find? (fun p => decide (p.1 = k)) with
  | some p => p.2
  | none => 0

/-- Auxiliary for `dedupKeys`: `seen` holds the keys already emitted. -/
def dedupKeysAux (seen : List K) : List K → List K
  | [] => []
  | k :: ks =>
    if k ∈ seen then dedupKeysAux seen ks
    else k :: dedupKeysAux (k :: seen) ks

/-- Distinct elements of a list, keeping the first occurrence of each,
in order of first appearance. -/
def dedupKeys (l : List K) : List K := dedupKeysAux [] l

/-- Model of `Series.value_counts()` as a key-to-count map: each
distinct value paired with its number of occurrences.  `value_counts`
orders its result by descending count with an unspecified (unstable)
order among tied counts; no meaning is attached to the key order here
— the merge below immediately realigns its result on the sorted union
index, and every claim reads it as a mapping. -/
def valueCounts (l : List K) : List (K × Nat) :=
  (dedupKeys l).map (fun k => (k, l.count k))

/-- Insert a key into an ascending list of keys. -/
def insertKeyAsc (k : K) : List K → List K
  | [] => [k]
  | x :: xs => if x < k then x :: insertKeyAsc k xs else k :: x :: xs

/-- Insertion sort of keys in ascending order: the order
`Index.union` gives the aligned index of a pandas arithmetic merge. -/
def sortKeys : List K → List K
  | [] => []
  | k :: ks => insertKeyAsc k (sortKeys ks)

/-- Model of `Series.add(other, fill_value=0)`: key-wise addition over
the union of the two key sets, an absent key contributing `0`.  The
operands are aligned on the union of their indexes, which pandas
returns sorted, so the merged series has its keys in ascending
order. -/
def seriesAdd (s t : List (K × Nat)) : List (K × Nat) :=
  (sortKeys (dedupKeys (s.map Prod.fst ++ t.map Prod.fst))).map
    (fun k => (k, lookup0 s k + lookup0 t k))

/-- The canonical accumulated series over a key column: the distinct
keys in ascending order, each with its occurrence count.  This is the
shape every chunked aggregation run ends in. -/
def sortedCounts (l : List K) : List (K × Nat) :=
  (sortKeys (dedupKeys l)).map (fun k => (k, l.count k))

/-- Sum of all counts of a series. -/
def sumCounts (s : List (K × Nat)) : Nat := (s.map Prod.snd).sum

/-! ### Chunked reading and the streaming aggregation loop -/

/-- The fixed `CHUNK_SIZE` of `cord19_analysis.py`. -/
def CHUNK_SIZE : Nat := 100

/-- Model of `pd.read_csv(..., chunksize=b)`: the consecutive windows
of `b` rows, the last possibly short.  (`max b 1` only serves
termination; a chunk size is positive.) -/
def chunksOf (b : Nat) : List α → List (List α)
  | [] => []
  | x :: xs => (x :: xs).take (max b 1) :: chunksOf b ((x :: xs).drop (max b 1))
termination_by l => l.length
decreasing_by
  have h1 : 1 ≤ max b 1 := le_max_right b 1
  simp only [List.length_drop, List.length_cons]
  omega

/-- The chunked aggregation loop shared by `analyze_publications_by_year`,
`analyze_top_journals` and `analyze_sources`: start from the empty
series, and for each chunk clean it, take the value counts of the key
column (`filterMap` drops the null keys, as `value_counts` drops NaN)
and merge them into the running total with `fill_value=0`. -/
def aggChunked (key : Row → Option K) (b : Nat) (rows : List Row) :
    List (K × Nat) :=
  (chunksOf b rows).foldl
    (fun acc chunk => seriesAdd acc (valueCounts (chunk.filterMap key))) []

/-! ### Top-N extraction (`Series.nlargest`) -/

/-- Insert a pair into a count-descending list, before the first entry
of no larger count: an entry originating earlier in the series stays
ahead of later entries with the same count. -/
def insertDesc (p : K × Nat) : List (K × Nat) → List (K × Nat)
  | [] => [p]
  | q :: qs => if q.2 ≤ p.2 then p :: q :: qs else q :: insertDesc p qs

/-- Stable sort of a series by count, descending. -/
def sortDesc : List (K × Nat) → List (K × Nat)
  | [] => []
  | p :: ps => insertDesc p (sortDesc ps)

/-- Model of `Series.nlargest(n)` (default `keep='first'`): the first
`n` entries of the stable descending sort by count. -/
def topN (n : Nat) (s : List (K × Nat)) : List (K × Nat) :=
  (sortDesc s).take n

/-- Insert a pair into a key-ascending list of year counts. -/
def insertAscInt (p : Int × Nat) : List (Int × Nat) → List (Int × Nat)
  | [] => [p]
  | q :: qs => if p.1 ≤ q.1 then p :: q :: qs else q :: insertAscInt p qs

/-- Model of `Series.sort_index()` for the year counts. -/
def sortIndexInt : List (Int × Nat) → List (Int × Nat)
  | [] => []
  | p :: ps => insertAscInt p (sortIndexInt ps)

/-! ### The source file and the failure path -/

/-- The file system as seen by one analysis run: the content of the
source path, or `none` when the file does not exist. -/
def FileSystem := Option (List Row)

/-- Model of `load_data`: `os.path.exists` is checked first and a
missing file raises `FileNotFoundError` before any chunk is read;
otherwise the chunk iterator over the file's rows is returned. -/
def load_data : Option (List Row) → Except String (List Row)
  | none => Except.error "FileNotFoundError"
  | some rows => Except.ok rows

/-- Model of `analyze_publications_by_year`: on success, the year
counts sorted by year together with the chart file it writes; on a
missing source, the error and no writes. -/
def analyze_publications_by_year (fs : Option (List Row)) :
    Except String (List (Int × Nat)) × List String :=
  match load_data fs with
  | Except.error e => (Except.error e, [])
  | Except.ok rows =>
      (Except.ok (sortIndexInt (aggChunked yearKey CHUNK_SIZE rows)),
       ["../images/publications_by_year.png"])

/-- Model of `analyze_top_journals`: on success, the `top_n` largest
journal counts together with the chart file it writes; on a missing
source, the error and no writes. -/
def analyze_top_journals (fs : Option (List Row)) (top_n : Nat := 10) :
    Except String (List (String × Nat)) × List String :=
  match load_data fs with
  | Except.error e => (Except.error e, [])
  | Except.ok rows =>
      (Except.ok (topN top_n (aggChunked journalKey CHUNK_SIZE rows)),
       ["../images/top_journals.png"])

/-! ### The dashboard (`app.py`) -/

/-- The dashboard's row filter: a row passes when
`(year >= lo) & (year <= hi) & (abstract_word_count >= m)`; a null
year compares false with anything, as pandas NaN comparisons do. -/
def rowPasses (lo hi : Int) (m : Nat) (r : CleanRow) : Bool :=
  (match r.year with
   | some y => decide (lo ≤ y) && decide (y ≤ hi)
   | none => false) && decide (m ≤ r.abstract_word_count)

/-- Model of `filtered_df`: the loaded rows satisfying the year-range
and minimum-word-count conditions. -/
def filtered_df (lo hi : Int) (m : Nat) (df : List CleanRow) :
    List CleanRow :=
  df.filter (rowPasses lo hi m)

/-- Bounds of a list of observed years: the default `(2019, 2022)`
when none were observed, otherwise their minimum and maximum. -/
def yearBoundsOf : List Int → Int × Int
  | [] => (2019, 2022)
  | y :: ys => (ys.foldl min y, ys.foldl max y)

/-- Model of the year-slider bounds: `(2019, 2022)` when every year is
null (`df['year'].isna().all()`), otherwise the minimum and maximum
observed year. -/
def yearBounds (df : List CleanRow) : Int × Int :=
  yearBoundsOf (df.filterMap (fun r => r.year))

/-- Model of `DataFrame.sample(n, random_state=42)` with a fixed seed:
a deterministic selection of `n` of the rows.  The specific
pseudo-random permutation is library-internal; it is modelled as the
first `n` rows, which preserves the properties at stake (a fixed
selection of exactly `n` rows, determined by the input alone). -/
def pdSample (n : Nat) (l : List String) : List String := l.take n

/-- The text-limiting step of the dashboard's word analysis tab: when
more than 1000 texts survive the filter, only a fixed 1000-row sample
is processed. -/
def tab3Texts (texts : List String) : List String :=
  if 1000 < texts.length then pdSample 1000 texts else texts

/-- Word frequencies the dashboard computes: join the (possibly
sampled) texts with spaces, tokenize, count. -/
def tab3WordFreq (texts : List String) : List (String × Nat) :=
  valueCounts (tokenize (joinSpace (tab3Texts texts)))

/-- Word frequencies over all filtered texts, with no sampling step:
the quantity the sampled computation is compared against. -/
def fullWordFreq (texts : List String) : List (String × Nat) :=
  valueCounts (tokenize (joinSpace texts))

/-! ## Lemmas about the series representation -/

theorem lookup0_map (keys : List K) (f : K → Nat) (k : K) :
    lookup0 (keys.map (fun x => (x, f x))) k = if k ∈ keys then f k else 0 := by
  induction keys with
  | nil => simp [lookup0]
  | cons k' ks ih =>
      by_cases h : k' = k
      · subst h
        simp [lookup0, List.find?]
      · rw [List.map_cons]
        have : lookup0 ((k', f k') :: ks.map (fun x => (x, f x))) k
            = lookup0 (ks.map (fun x => (x, f x))) k := by
          simp [lookup0, List.find?, h]
        rw [this, ih]
        simp [List.mem_cons, Ne.symm h]

theorem dedupKeysAux_congr (l : List K) :
    ∀ seen₁ seen₂, (∀ x ∈ l, (x ∈ seen₁ ↔ x ∈ seen₂)) →
      dedupKeysAux seen₁ l = dedupKeysAux seen₂ l := by
  induction l with
  | nil => intro _ _ _; rfl
  | cons k ks ih =>
      intro seen₁ seen₂ hmem
      rw [dedupKeysAux, dedupKeysAux]
      have hk : k ∈ seen₁ ↔ k ∈ seen₂ := hmem k (List.mem_cons_self k ks)
      by_cases h : k ∈ seen₁
      · rw [if_pos h, if_pos (hk.1 h)]
        exact ih _ _ (fun x hx => hmem x (List.mem_cons_of_mem k hx))
      · rw [if_neg h, if_neg (fun h2 => h (hk.2 h2))]
        refine congrArg (k :: ·) (ih _ _ ?_)
        intro x hx
        simp only [List.mem_cons]
        rw [hmem x (List.mem_cons_of_mem k hx)]

theorem dedupKeysAux_filter_of_mem (l : List K) :
    ∀ (seen : List K) (k : K), k ∈ seen →
      dedupKeysAux seen (l.filter (fun x => decide (x ≠ k)))
        = dedupKeysAux seen l := by
  induction l with
  | nil => intro _ _ _; rfl
  | cons x xs ih =>
      intro seen k hk
      by_cases hxk : x = k
      · subst hxk
        rw [List.filter_cons_of_neg (by simp), dedupKeysAux, if_pos hk, ih _ _ hk]
      · rw [List.filter_cons_of_pos (by simp [hxk]), dedupKeysAux, dedupKeysAux]
        by_cases hs : x ∈ seen
        · rw [if_pos hs, if_pos hs, ih _ _ hk]
        · rw [if_neg hs, if_neg hs, ih _ _ (List.mem_cons_of_mem x hk)]

theorem dedupKeys_nil : dedupKeys ([] : List K) = [] := rfl

/-- Recursive characterisation of `dedupKeys`: the head is kept and all
its later duplicates are discarded. -/
theorem dedupKeys_cons (k : K) (ks : List K) :
    dedupKeys (k :: ks)
      = k :: dedupKeys (ks.filter (fun x => decide (x ≠ k))) := by
  rw [dedupKeys, dedupKeysAux, if_neg (List.not_mem_nil k), dedupKeys]
  refine congrArg (k :: ·) ?_
  rw [← dedupKeysAux_filter_of_mem ks [k] k (List.mem_singleton.2 rfl)]
  refine dedupKeysAux_congr _ _ _ ?_
  intro x hx
  rcases List.mem_filter.1 hx with ⟨_, hne⟩
  have : x ≠ k := by simpa using hne
  simp [this]

/-- Induction principle matching the recursive characterisation of
`dedupKeys`. -/
theorem dedupInduction (P : List K → Prop) (h0 : P [])
    (h1 : ∀ k ks, P (ks.filter (fun x => decide (x ≠ k))) → P (k :: ks)) :
    ∀ l, P l := by
  have main : ∀ (n : Nat) (l : List K), l.length ≤ n → P l := by
    intro n
    induction n with
    | zero =>
        intro l hl
        cases l with
        | nil => exact h0
        | cons k ks => simp at hl
    | succ n ih =>
        intro l hl
        cases l with
        | nil => exact h0
        | cons k ks =>
            refine h1 k ks (ih _ ?_)
            have hle := List.length_filter_le (fun x => decide (x ≠ k)) ks
            simp only [List.length_cons] at hl
            omega
  exact fun l => main l.length l le_rfl

theorem mem_dedupKeys {l : List K} {k : K} : k ∈ dedupKeys l ↔ k ∈ l := by
  induction l using dedupInduction with
  | h0 => simp [dedupKeys_nil]
  | h1 k' ks ih =>
      rw [dedupKeys_cons]
      by_cases h : k = k'
      · subst h; simp
      · simp only [List.mem_cons, ih, List.mem_filter, decide_eq_true_iff]
        tauto

theorem nodup_dedupKeys (l : List K) : (dedupKeys l).Nodup := by
  induction l using dedupInduction with
  | h0 => simp [dedupKeys_nil]
  | h1 k' ks ih =>
      rw [dedupKeys_cons]
      refine List.Nodup.cons ?_ ih
      intro hmem
      rcases (mem_dedupKeys.1 hmem) with h
      rcases List.mem_filter.1 h with ⟨_, hne⟩
      exact (decide_eq_true_iff.1 hne) rfl

theorem lookup0_valueCounts (l : List K) (k : K) :
    lookup0 (valueCounts l) k = l.count k := by
  rw [valueCounts, lookup0_map]
  by_cases h : k ∈ l
  · simp [mem_dedupKeys, h]
  · simp [mem_dedupKeys, h, List.count_eq_zero_of_not_mem h]

theorem filter_ne_of_not_mem {l : List K} {k : K} (h : k ∉ l) :
    l.filter (fun x => decide (x ≠ k)) = l := by
  refine List.filter_eq_self.2 ?_
  intro x hx
  simp only [decide_eq_true_iff]
  intro hxk; exact h (hxk ▸ hx)

theorem dedupKeys_filter (p : K → Bool) (l : List K) :
    dedupKeys (l.filter p) = (dedupKeys l).filter p := by
  induction l using dedupInduction with
  | h0 => simp [dedupKeys_nil]
  | h1 k ks ih =>
      by_cases hp : p k
      · rw [List.filter_cons_of_pos hp, dedupKeys_cons, dedupKeys_cons,
          List.filter_cons_of_pos hp, List.filter_comm, ih]
      · have hk : k ∉ ks.filter p := by
          intro hmem
          exact absurd (List.mem_filter.1 hmem).2 (by simp [hp])
        rw [List.filter_cons_of_neg hp, dedupKeys_cons,
          List.filter_cons_of_neg hp, ← ih, List.filter_comm]
        congr 1
        exact (filter_ne_of_not_mem hk).symm

theorem dedupKeys_append (a b : List K) :
    dedupKeys (a ++ b)
      = dedupKeys a ++ dedupKeys (b.filter (fun x => decide (x ∉ a))) := by
  induction a using dedupInduction generalizing b with
  | h0 => simp [dedupKeys_nil]
  | h1 k ks ih =>
      rw [List.cons_append, dedupKeys_cons, dedupKeys_cons, List.filter_append,
        ih (b.filter (fun x => decide (x ≠ k))), List.filter_filter,
        List.cons_append]
      congr 2
      refine congrArg dedupKeys (List.filter_congr ?_)
      intro x _
      by_cases hxk : x = k
      · subst hxk; simp
      · by_cases hxks : x ∈ ks
        · simp [hxk, hxks]
        · simp [hxk, hxks]

theorem dedupKeys_idem (l : List K) : dedupKeys (dedupKeys l) = dedupKeys l := by
  induction l using dedupInduction with
  | h0 => simp [dedupKeys_nil]
  | h1 k ks ih =>
      rw [dedupKeys_cons, dedupKeys_cons]
      have hk : k ∉ dedupKeys (ks.filter (fun x => decide (x ≠ k))) := by
        intro hmem
        rcases List.mem_filter.1 (mem_dedupKeys.1 hmem) with ⟨_, hne⟩
        exact (decide_eq_true_iff.1 hne) rfl
      rw [filter_ne_of_not_mem hk, ih]

theorem dedupKeys_dedup_append (a b : List K) :
    dedupKeys (dedupKeys a ++ dedupKeys b) = dedupKeys (a ++ b) := by
  rw [dedupKeys_append, dedupKeys_append, dedupKeys_idem]
  congr 1
  have h1 : (dedupKeys b).filter (fun x => decide (x ∉ dedupKeys a))
      = (dedupKeys b).filter (fun x => decide (x ∉ a)) := by
    refine List.filter_congr ?_
    intro x _
    simp [mem_dedupKeys]
  rw [h1, ← dedupKeys_filter, dedupKeys_idem, dedupKeys_filter]

theorem map_fst_valueCounts (l : List K) :
    (valueCounts l).map Prod.fst = dedupKeys l := by
  simp [valueCounts, List.map_map, Function.comp_def]

theorem insertKeyAsc_perm (k : K) (l : List K) :
    List.Perm (insertKeyAsc k l) (k :: l) := by
  induction l with
  | nil => simp [insertKeyAsc]
  | cons x xs ih =>
      rw [insertKeyAsc]
      by_cases h : x < k
      · simp only [h, if_true]
        exact (ih.cons x).trans (List.Perm.swap k x xs)
      · simp [h]

theorem sortKeys_perm (l : List K) : List.Perm (sortKeys l) l := by
  induction l with
  | nil => simp [sortKeys]
  | cons k ks ih =>
      rw [sortKeys]
      exact (insertKeyAsc_perm k (sortKeys ks)).trans (ih.cons k)

theorem mem_sortKeys {l : List K} {k : K} : k ∈ sortKeys l ↔ k ∈ l :=
  (sortKeys_perm l).mem_iff

theorem insertKeyAsc_pairwise (k : K) (l : List K)
    (hl : l.Pairwise (· ≤ ·)) :
    (insertKeyAsc k l).Pairwise (· ≤ ·) := by
  induction l with
  | nil => simp [insertKeyAsc]
  | cons x xs ih =>
      rw [insertKeyAsc]
      rcases List.pairwise_cons.1 hl with ⟨hx, hxs⟩
      by_cases h : x < k
      · simp only [h, if_true]
        refine List.pairwise_cons.2 ⟨?_, ih hxs⟩
        intro r hr
        rcases List.mem_cons.1 ((insertKeyAsc_perm k xs).mem_iff.1 hr)
          with h' | h'
        · exact h' ▸ le_of_lt h
        · exact hx r h'
      · simp only [h, if_false]
        refine List.pairwise_cons.2 ⟨?_, hl⟩
        intro r hr
        rcases List.mem_cons.1 hr with h' | h'
        · exact h' ▸ le_of_not_lt h
        · exact le_trans (le_of_not_lt h) (hx r h')

theorem sortKeys_sorted (l : List K) : (sortKeys l).Pairwise (· ≤ ·) := by
  induction l with
  | nil => simp [sortKeys]
  | cons k ks ih => exact insertKeyAsc_pairwise k (sortKeys ks) ih

/-- Two duplicate-free key lists with the same members sort to the
same list: the aligned index is canonical. -/
theorem sortKeys_canonical {l₁ l₂ : List K} (h₁ : l₁.Nodup)
    (h₂ : l₂.Nodup) (hmem : ∀ k, k ∈ l₁ ↔ k ∈ l₂) :
    sortKeys l₁ = sortKeys l₂ := by
  haveI : IsAntisymm K (· ≤ ·) := ⟨fun _ _ => le_antisymm⟩
  have hp : List.Perm l₁ l₂ := (List.perm_ext_iff_of_nodup h₁ h₂).2 hmem
  exact List.eq_of_perm_of_sorted
    ((sortKeys_perm l₁).trans (hp.trans (sortKeys_perm l₂).symm))
    (sortKeys_sorted l₁) (sortKeys_sorted l₂)

theorem lookup0_sortedCounts (l : List K) (k : K) :
    lookup0 (sortedCounts l) k = l.count k := by
  rw [sortedCounts, lookup0_map]
  by_cases h : k ∈ l
  · simp [mem_sortKeys, mem_dedupKeys, h]
  · simp [mem_sortKeys, mem_dedupKeys, h, List.count_eq_zero_of_not_mem h]

theorem map_fst_sortedCounts (l : List K) :
    (sortedCounts l).map Prod.fst = sortKeys (dedupKeys l) := by
  simp [sortedCounts, List.map_map, Function.comp_def]

/-- One merge step is lossless and canonicalising: adding a batch's
value counts to a canonical accumulated series yields the canonical
series of the concatenated key column. -/
theorem seriesAdd_sortedCounts (a b : List K) :
    seriesAdd (sortedCounts a) (valueCounts b) = sortedCounts (a ++ b) := by
  rw [seriesAdd, map_fst_sortedCounts, map_fst_valueCounts]
  have hkeys : sortKeys (dedupKeys (sortKeys (dedupKeys a) ++ dedupKeys b))
      = sortKeys (dedupKeys (a ++ b)) := by
    refine sortKeys_canonical (nodup_dedupKeys _) (nodup_dedupKeys _) ?_
    intro k
    simp [mem_dedupKeys, mem_sortKeys]
  rw [hkeys]
  simp only [lookup0_sortedCounts, lookup0_valueCounts]
  rw [sortedCounts]
  refine List.map_congr_left ?_
  intro k _
  rw [List.count_append]

theorem valueCounts_nil : valueCounts ([] : List K) = [] := rfl

theorem sortedCounts_nil : sortedCounts ([] : List K) = [] := rfl

/-- Reassembling the chunks gives back the original list: chunk
boundaries are an artifact of the reader. -/
theorem chunksOf_flatten (b : Nat) (l : List α) :
    (chunksOf b l).flatten = l := by
  induction l using chunksOf.induct b with
  | case1 => simp [chunksOf]
  | case2 x xs ih =>
      rw [chunksOf]
      simp only [List.flatten_cons, ih]
      exact List.take_append_drop _ (x :: xs)

/-- Master refinement lemma for the streaming aggregation: for any
chunk size, the chunked loop computes exactly the canonical
(key-ascending) counts of the whole key column. -/
theorem aggChunked_eq_sortedCounts (key : Row → Option K) (b : Nat)
    (rows : List Row) :
    aggChunked key b rows = sortedCounts (rows.filterMap key) := by
  have main : ∀ (cs : List (List Row)) (init : List K),
      cs.foldl
        (fun acc chunk => seriesAdd acc (valueCounts (chunk.filterMap key)))
        (sortedCounts init)
      = sortedCounts
          (init ++ (cs.map (fun c => c.filterMap key)).flatten) := by
    intro cs
    induction cs with
    | nil => intro init; simp
    | cons c cs ih =>
        intro init
        simp only [List.foldl_cons, seriesAdd_sortedCounts, List.map_cons,
          List.flatten_cons]
        rw [ih (init ++ c.filterMap key), List.append_assoc]
  have h0 : ([] : List (K × Nat)) = sortedCounts [] := sortedCounts_nil.symm
  rw [aggChunked, h0, main, List.nil_append, ← List.filterMap_flatten,
    chunksOf_flatten]

/-- The total of all counts in the accumulated series is the number of
counted elements. -/
theorem sumCounts_sortedCounts (l : List K) :
    sumCounts (sortedCounts l) = l.length := by
  have hperm : List.Perm (sortKeys (dedupKeys l)) l.dedup :=
    ((sortKeys_perm (dedupKeys l)).trans
      ((List.perm_ext_iff_of_nodup (nodup_dedupKeys l)
        (List.nodup_dedup l)).2
        (fun k => by simp [mem_dedupKeys, List.mem_dedup])))
  have hmaps : List.Perm ((sortKeys (dedupKeys l)).map (fun k => l.count k))
      (l.dedup.map (fun k => l.count k)) := hperm.map _
  have : sumCounts (sortedCounts l)
      = ((sortKeys (dedupKeys l)).map (fun k => l.count k)).sum := by
    simp [sumCounts, sortedCounts, List.map_map, Function.comp_def]
  rw [this, hmaps.sum_eq, List.sum_map_count_dedup_eq_length]

theorem runsAux_length (p : Char → Bool) (cs : List Char) :
    ∀ acc, (runsAux p acc cs).length
      = (if acc.isEmpty then 0 else 1) + countRunsAux p (!acc.isEmpty) cs := by
  induction cs with
  | nil =>
      intro acc
      by_cases h : acc.isEmpty <;> simp [runsAux, countRunsAux, h]
  | cons c cs ih =>
      intro acc
      rw [runsAux, countRunsAux]
      by_cases hc : p c
      · rw [if_pos hc, if_pos hc, ih (c :: acc)]
        cases acc <;> simp
      · rw [if_neg hc, if_neg hc]
        cases acc with
        | nil => simpa using ih []
        | cons a as =>
            have hne : ¬((a :: as).isEmpty = true) := by simp
            rw [if_neg hne, List.length_cons, ih []]
            simp
            omega

/-- The number of maximal runs equals the transition count: the
independent characterisation of `runs` used in the word-count claims. -/
theorem runs_length (p : Char → Bool) (cs : List Char) :
    (runs p cs).length = countRuns p cs := by
  rw [runs, countRuns, runsAux_length]
  simp

theorem runs_cons_neg (p : Char → Bool) (c : Char) (cs : List Char)
    (hc : p c = false) : runs p (c :: cs) = runs p cs := by
  simp [runs, runsAux, hc]

theorem runs_nil (p : Char → Bool) : runs p [] = [] := rfl

theorem runs_replicate_neg (p : Char → Bool) (c : Char) (hc : p c = false)
    (n : Nat) (ds : List Char) :
    runs p (List.replicate n c ++ ds) = runs p ds := by
  induction n with
  | zero => simp
  | succ n ih =>
      rw [List.replicate_succ, List.cons_append, runs_cons_neg p c _ hc, ih]

/-- Tail of a joined string: the separator-prefixed remainder. -/
def tailJoin (sep : String) : List String → String
  | [] => ""
  | a :: as => sep ++ a ++ tailJoin sep as

theorem intercalate_go_eq (sep : String) (as : List String) :
    ∀ acc : String, String.intercalate.go acc sep as = acc ++ tailJoin sep as := by
  induction as with
  | nil =>
      intro acc
      rw [String.intercalate.go, tailJoin]
      exact (String.append_empty acc).symm
  | cons a as ih =>
      intro acc
      rw [String.intercalate.go, ih, tailJoin, String.append_assoc acc,
        String.append_assoc]

theorem joinSpace_cons (a : String) (as : List String) :
    joinSpace (a :: as) = a ++ tailJoin " " as :=
  intercalate_go_eq " " as a

theorem tailJoin_replicate_empty (n : Nat) :
    (tailJoin " " (List.replicate n "")).data = List.replicate n ' ' := by
  induction n with
  | zero => rfl
  | succ n ih =>
      rw [List.replicate_succ, tailJoin, List.replicate_succ]
      simp only [String.data_append, ih]
      rfl

theorem tailJoin_replicate_pan (n : Nat) :
    (tailJoin " " (List.replicate n "" ++ ["pan"])).data
      = List.replicate n ' ' ++ (' ' :: ['p', 'a', 'n']) := by
  induction n with
  | zero => rfl
  | succ n ih =>
      rw [List.replicate_succ, List.cons_append, tailJoin, List.replicate_succ]
      simp only [String.data_append, ih]
      rfl

theorem tokenize_of_data_spaces (s : String) (n : Nat)
    (h : s.data = List.replicate n ' ') : tokenize s = [] := by
  have hlow : (lowerStr s).data = List.replicate n ' ' := by
    show (s.data.map Char.toLower) = _
    rw [h, List.map_replicate]
    rfl
  rw [tokenize, reFindallWords, hlow, ← List.append_nil (List.replicate n ' '),
    runs_replicate_neg isWordChar ' ' (by decide), runs_nil]
  rfl

theorem tokenize_of_data_spaces_pan (s : String) (n : Nat)
    (h : s.data = List.replicate n ' ' ++ (' ' :: ['p', 'a', 'n'])) :
    tokenize s = ["pan"] := by
  have hlow : (lowerStr s).data
      = List.replicate (n + 1) ' ' ++ ['p', 'a', 'n'] := by
    show (s.data.map Char.toLower) = _
    have h1 : Char.toLower ' ' = ' ' := by decide
    have h2 : Char.toLower 'p' = 'p' := by decide
    have h3 : Char.toLower 'a' = 'a' := by decide
    have h4 : Char.toLower 'n' = 'n' := by decide
    rw [h, List.map_append, List.map_replicate, List.replicate_succ']
    simp [h1, h2, h3, h4, List.append_assoc]
  rw [tokenize, reFindallWords, hlow,
    runs_replicate_neg isWordChar ' ' (by decide)]
  rfl

/-! ## Lemmas about cleaning and the key columns -/

theorem length_filterMap_journalKey (rows : List Row) :
    (rows.filterMap journalKey).length = rows.length := by
  induction rows with
  | nil => simp
  | cons r rs ih => simp [List.filterMap_cons, journalKey, ih]

theorem length_filterMap_isSome (f : Row → Option Int) (rows : List Row) :
    (rows.filterMap f).length
      = (rows.filter (fun r => (f r).isSome)).length := by
  induction rows with
  | nil => simp
  | cons r rs ih =>
      rw [List.filterMap_cons, List.filter_cons]
      cases h : f r <;> simp [h, ih]

/-! ## Sample data used by the claim witnesses

A ten-row source file with years 2019 x 3, 2020 x 5, 2021 x 2 (the
end-to-end scenario of the specification), one missing journal and one
missing source. -/

def sampleRows : List Row :=
  [⟨some "p1", some "alpha beta", some "2019-01-01", some "Nature", some "PMC"⟩,
   ⟨some "p2", some "gamma", some "2019-03-04", some "Science", some "PMC"⟩,
   ⟨some "p3", none, some "2019-11-30", some "Nature", some "Elsevier"⟩,
   ⟨some "p4", some "delta eps", some "2020-01-15", some "Lancet", some "PMC"⟩,
   ⟨some "p5", some "zeta", some "2020-02-02", none, some "WHO"⟩,
   ⟨some "p6", some "eta theta", some "2020-05-06", some "Nature", none⟩,
   ⟨some "p7", none, some "2020-07-08", some "Lancet", some "PMC"⟩,
   ⟨some "p8", some "iota", some "2020-12-31", some "Science", some "Elsevier"⟩,
   ⟨some "p9", some "kappa", some "2021-04-01", some "Nature", some "PMC"⟩,
   ⟨some "p10", some "lam mu nu", some "2021-09-09", some "BMJ", some "WHO"⟩]

/-- A row whose date does not parse and whose journal is missing. -/
def badRow : Row := ⟨some "t", none, some "not a date", none, none⟩

/-- A fully populated row. -/
def goodRow : Row :=
  ⟨some "u", some "an abstract", some "2020-01-02", some "Nature", some "PMC"⟩

/-- A cleaned row as the dashboard sees it. -/
def sampleClean : CleanRow :=
  ⟨some "t", some "a b c", some 2020, 3, "Nature", none⟩

/-- A cleaned row whose year is null. -/
def nullYearRow : CleanRow := ⟨none, none, none, 0, "Unknown", none⟩

/-- The 1001 filtered texts used to separate the sampled word
frequencies from the full ones. -/
def manyTexts : List String := List.replicate 1000 "" ++ ["pan"]

/-- C1: batch-size invariance.  For every input file, the final
key-to-count mapping produced by the chunked aggregation (clean each
chunk, take its value counts, merge into the running total with
key-wise addition defaulting absent keys to zero) is the same for any
two positive batch sizes; taking one of them at least the file length
covers the whole-file-in-one-batch case.  This holds for the year, the
journal and the source aggregations. -/
theorem c1_batch_size_invariance (b₁ b₂ : Nat) (_h₁ : 0 < b₁)
    (_h₂ : 0 < b₂) (rows : List Row) :
    aggChunked yearKey b₁ rows = aggChunked yearKey b₂ rows ∧
    aggChunked journalKey b₁ rows = aggChunked journalKey b₂ rows ∧
    aggChunked sourceKey b₁ rows = aggChunked sourceKey b₂ rows := by
  refine ⟨?_, ?_, ?_⟩ <;>
    rw [aggChunked_eq_sortedCounts, aggChunked_eq_sortedCounts]

theorem c1_witness :
    0 < 3 ∧ 0 < 10 ∧
    (aggChunked yearKey 3 sampleRows = aggChunked yearKey 10 sampleRows ∧
     aggChunked journalKey 3 sampleRows
       = aggChunked journalKey 10 sampleRows ∧
     aggChunked sourceKey 3 sampleRows
       = aggChunked sourceKey 10 sampleRows) :=
  ⟨by decide, by decide,
   c1_batch_size_invariance 3 10 (by decide) (by decide) sampleRows⟩

/-- C3: count conservation.  For every input file and positive batch
size, the counts in the final journal mapping sum to the total number
of rows (missing journals are counted under the `"Unknown"` sentinel),
and the counts in the final year mapping sum to the number of rows
whose date field parses to a year. -/
theorem c3_count_conservation (b : Nat) (_hb : 0 < b) (rows : List Row) :
    sumCounts (aggChunked journalKey b rows) = rows.length ∧
    sumCounts (aggChunked yearKey b rows)
      = (rows.filter (fun r => (parseYear r.publish_time).isSome)).length := by
  constructor
  · rw [aggChunked_eq_sortedCounts, sumCounts_sortedCounts,
      length_filterMap_journalKey]
  · rw [aggChunked_eq_sortedCounts, sumCounts_sortedCounts,
      length_filterMap_isSome yearKey rows]
    rfl

theorem c3_witness :
    0 < 3 ∧
    (sumCounts (aggChunked journalKey 3 sampleRows) = sampleRows.length ∧
     sumCounts (aggChunked yearKey 3 sampleRows)
       = (sampleRows.filter
           (fun r => (parseYear r.publish_time).isSome)).length) :=
  ⟨by decide, c3_count_conservation 3 (by decide) sampleRows⟩

/-- C4, counterexample to the claim as stated: the tokenizer does not
extract every maximal run of ASCII letters.  The regex
`\b[a-zA-Z]+\b` refuses a letter run adjacent to a digit, so on
`"covid19 spread"` the code keeps only `"spread"`, while the claimed
letter-run extraction would also yield `"covid"`. -/
theorem c4_counterexample :
    tokenize "covid19 spread" = ["spread"] ∧
    tokenizeLetterRuns "covid19 spread" = ["covid", "spread"] ∧
    tokenize "covid19 spread" ≠ tokenizeLetterRuns "covid19 spread" := by
  refine ⟨by decide, by decide, by decide⟩

/-- C4 (amended): the tokenizer lower-cases the text, extracts the
maximal runs of word characters that consist entirely of ASCII letters
(the regex's word boundaries exclude letter runs adjacent to digits or
underscores), discards tokens of length at most 2 and tokens in the
fixed stop-word set; every surviving token is over 2 characters long,
is not a stop word and consists of letters; each token contributes
exactly its number of occurrences to the counting step; and on
`"The virus and the pandemic"` the surviving tokens are exactly
`virus` and `pandemic`. -/
theorem c4_tokenizer (s : String) :
    tokenize s = (reFindallWords (lowerStr s)).filter
        (fun w => decide (w ∉ stopWords) && decide (2 < w.length)) ∧
    (∀ w ∈ tokenize s,
        2 < w.length ∧ w ∉ stopWords ∧ w.data.all isAsciiLetter = true) ∧
    (∀ w, lookup0 (valueCounts (tokenize s)) w = (tokenize s).count w) ∧
    tokenize "The virus and the pandemic" = ["virus", "pandemic"] := by
  refine ⟨rfl, ?_, fun w => lookup0_valueCounts _ w, by decide⟩
  intro w hw
  rcases List.mem_filter.1 hw with ⟨hmem, hpred⟩
  rcases Bool.and_eq_true_iff.1 hpred with ⟨hstop, hlen⟩
  refine ⟨by simpa using hlen, by simpa using hstop, ?_⟩
  rcases List.mem_map.1 hmem with ⟨run, hrun, hmk⟩
  rcases List.mem_filter.1 hrun with ⟨_, hletters⟩
  rw [← hmk]
  exact hletters

theorem c4_witness :
    2 < "virus".length ∧ "virus" ∉ stopWords ∧
    "virus".data.all isAsciiLetter = true :=
  (c4_tokenizer "The virus").2.1 "virus" (by decide)

/-- C5: if the source file does not exist, `load_data` fails with the
file-not-found error before any chunk is read, the chunked analyses
propagate the error, and no output artefact is written. -/
theorem c5_source_not_found :
    load_data none = Except.error "FileNotFoundError" ∧
    analyze_publications_by_year none
      = (Except.error "FileNotFoundError", []) ∧
    (∀ top_n, analyze_top_journals none top_n
      = (Except.error "FileNotFoundError", [])) :=
  ⟨rfl, rfl, fun _ => rfl⟩

/-- C6: missing-field tolerance.  Cleaning never drops or aborts a
row; a row whose date does not parse gets a null year and leaves the
year aggregation of the remaining rows unchanged; a row with a missing
(empty-in-CSV) journal is cleaned to `"Unknown"` and counted under
that sentinel. -/
theorem c6_missing_field_tolerance (r : Row) (rows : List Row) (b : Nat) :
    (cleanChunk (r :: rows)).length = rows.length + 1 ∧
    (parseYear r.publish_time = none →
      (cleanRow r).year = none ∧
      aggChunked yearKey b (r :: rows) = aggChunked yearKey b rows) ∧
    (r.journal = none →
      (cleanRow r).journal = "Unknown" ∧
      lookup0 (aggChunked journalKey b (r :: rows)) "Unknown"
        = lookup0 (aggChunked journalKey b rows) "Unknown" + 1) := by
  refine ⟨by simp [cleanChunk], ?_, ?_⟩
  · intro h
    have hy : yearKey r = none := h
    exact ⟨h, by rw [aggChunked_eq_sortedCounts, aggChunked_eq_sortedCounts,
      List.filterMap_cons_none hy]⟩
  · intro h
    have hj : journalKey r = some "Unknown" := by
      rw [journalKey]
      show some (r.journal.getD "Unknown") = _
      rw [h]
      rfl
    refine ⟨by show r.journal.getD "Unknown" = _; rw [h]; rfl, ?_⟩
    rw [aggChunked_eq_sortedCounts, aggChunked_eq_sortedCounts,
      List.filterMap_cons_some hj, lookup0_sortedCounts, lookup0_sortedCounts,
      List.count_cons_self]

theorem c6_witness :
    ((cleanRow badRow).year = none ∧
     aggChunked yearKey 1 (badRow :: [goodRow])
       = aggChunked yearKey 1 [goodRow]) ∧
    ((cleanRow badRow).journal = "Unknown" ∧
     lookup0 (aggChunked journalKey 1 (badRow :: [goodRow])) "Unknown"
       = lookup0 (aggChunked journalKey 1 [goodRow]) "Unknown" + 1) :=
  ⟨(c6_missing_field_tolerance badRow [goodRow] 1).2.1 (by decide),
   (c6_missing_field_tolerance badRow [goodRow] 1).2.2 rfl⟩

/-- C7: dashboard filtering.  For a year range with `lo ≤ hi` and a
minimum word count, a loaded row is in the filtered dataset exactly
when its year is a value between the bounds and its abstract word
count reaches the minimum. -/
theorem c7_dashboard_filter (lo hi : Int) (m : Nat) (df : List CleanRow)
    (_h : lo ≤ hi) (r : CleanRow) :
    r ∈ filtered_df lo hi m df ↔
      r ∈ df ∧ ∃ y, r.year = some y ∧ lo ≤ y ∧ y ≤ hi
        ∧ m ≤ r.abstract_word_count := by
  rw [filtered_df, List.mem_filter]
  cases hy : r.year with
  | none => simp [rowPasses, hy]
  | some y => simp [rowPasses, hy, and_assoc]

theorem c7_witness :
    (2019 : Int) ≤ 2021 ∧
    (sampleClean ∈ filtered_df 2019 2021 2 [sampleClean] ↔
      sampleClean ∈ [sampleClean] ∧
      ∃ y, sampleClean.year = some y ∧ 2019 ≤ y ∧ y ≤ 2021
        ∧ 2 ≤ sampleClean.abstract_word_count) :=
  ⟨by decide, c7_dashboard_filter 2019 2021 2 [sampleClean] (by decide)
    sampleClean⟩

/-- C8: the derived abstract word count is the number of
whitespace-delimited tokens of the abstract (characterised
independently as the number of maximal non-whitespace runs), is zero
for a missing or empty abstract, and the dashboard's
fill-then-count variant computes the same value. -/
theorem c8_abstract_word_count (r : Row) (s : String) (a : Option String) :
    (cleanRow r).abstract_word_count = abstractWordCount r.abstract ∧
    abstractWordCount (some s) = countRuns (fun c => !pyIsSpace c) s.data ∧
    abstractWordCount none = 0 ∧
    abstractWordCount (some "") = 0 ∧
    appAbstractWordCount a = abstractWordCount a := by
  refine ⟨rfl, ?_, rfl, by decide, ?_⟩
  · show (pySplit s).length = _
    rw [pySplit, List.length_map, runs_length]
  · cases a with
    | some s => rfl
    | none => rfl

/-- C9: the dashboard's word analysis never tokenizes more than 1000
documents: beyond 1000 filtered texts a fixed deterministic 1000-row
sample is used, below the threshold all texts are used, and the
sampled frequencies can differ from the frequencies over all filtered
rows (witnessed at a concrete 1001-text input). -/
theorem c9_word_sampling (texts : List String) :
    (1000 < texts.length → (tab3Texts texts).length = 1000) ∧
    (texts.length ≤ 1000 → tab3Texts texts = texts) ∧
    tab3WordFreq manyTexts ≠ fullWordFreq manyTexts := by
  refine ⟨?_, ?_, ?_⟩
  · intro h
    rw [tab3Texts, if_pos h, pdSample, List.length_take]
    omega
  · intro h
    rw [tab3Texts, if_neg (by omega)]
  · have hsample : tab3Texts manyTexts = List.replicate 1000 "" := by
      have hlen : manyTexts.length = 1001 := by
        rw [manyTexts, List.length_append, List.length_replicate]
        rfl
      rw [tab3Texts, if_pos (by rw [hlen]; omega), pdSample, manyTexts,
        List.take_left' (List.length_replicate 1000 "")]
    have h2 : tokenize (joinSpace (tab3Texts manyTexts)) = [] := by
      rw [hsample, show (1000 : Nat) = 999 + 1 from rfl, List.replicate_succ,
        joinSpace_cons]
      refine tokenize_of_data_spaces _ 999 ?_
      rw [String.data_append, tailJoin_replicate_empty]
      rfl
    have h3 : tokenize (joinSpace manyTexts) = ["pan"] := by
      rw [manyTexts, show (1000 : Nat) = 999 + 1 from rfl, List.replicate_succ,
        List.cons_append, joinSpace_cons]
      refine tokenize_of_data_spaces_pan _ 999 ?_
      rw [String.data_append, tailJoin_replicate_pan]
      rfl
    have h4 : valueCounts ["pan"] = [("pan", 1)] := by decide
    rw [tab3WordFreq, fullWordFreq, h2, h3, valueCounts_nil, h4]
    simp

theorem c9_witness :
    1000 < manyTexts.length ∧ (tab3Texts manyTexts).length = 1000 := by
  have hlen : manyTexts.length = 1001 := by
    rw [manyTexts, List.length_append, List.length_replicate]
    rfl
  exact ⟨by rw [hlen]; omega,
    (c9_word_sampling manyTexts).1 (by rw [hlen]; omega)⟩

/-- C10: a row whose date failed to parse (null year) is never in the
filtered dataset, for every year range and minimum word count; and
when every loaded row has a null year the year slider's bounds default
to `(2019, 2022)`. -/
theorem c10_null_year_rows (df : List CleanRow) (lo hi : Int) (m : Nat)
    (r : CleanRow) :
    (r.year = none → r ∉ filtered_df lo hi m df) ∧
    ((∀ x ∈ df, x.year = none) → yearBounds df = (2019, 2022)) := by
  constructor
  · intro hy hmem
    rcases List.mem_filter.1 hmem with ⟨_, hpass⟩
    simp [rowPasses, hy] at hpass
  · intro hall
    rw [yearBounds, List.filterMap_eq_nil_iff.2 hall]
    rfl

theorem c10_witness :
    (nullYearRow ∉ filtered_df 2019 2022 0 [nullYearRow]) ∧
    yearBounds [nullYearRow] = (2019, 2022) :=
  ⟨(c10_null_year_rows [nullYearRow] 2019 2022 0 nullYearRow).1 rfl,
   (c10_null_year_rows [nullYearRow] 2019 2022 0 nullYearRow).2
     (by intro x hx; rw [List.mem_singleton.1 hx]; rfl)⟩

end Cord19
